import Mathlib

/-!
Shallow embedding of `src/layout/main.py` (layout-editor-js): connectivity
generation, arrangement mapping, crossing counting and the sampling harness
for layered circuit layouts.

Gate identities and positions are natural numbers; connection lists are
`List (List (Nat × Nat))` (one inner list per adjacent-layer gap), exactly
mirroring the Python data representation.  Python's global pseudo-random
state (`random.seed` / `random.sample` of the standard library, external to
the repository) is modelled by an explicit `RandState` threaded through the
generator: `sample` is a deterministic partial Fisher–Yates style draw of
`k` distinct elements of the population, failing when `k` exceeds the
population size, which is the stdlib's documented contract.  Exceptions are
modelled by `Except LayoutError`, with the spec's error taxonomy:
`ValueError` from over-large sampling is `InvalidConfiguration`, and
`ValueError` from `list.index` on a missing identity is
`MalformedArrangement`.
-/

namespace Layout

/-- Error taxonomy of the spec (§7): `InvalidConfiguration` for impossible
sampling requests at generation time, `MalformedArrangement` for identities
missing from a permutation at mapping time. -/
inductive LayoutError where
  | InvalidConfiguration : LayoutError
  | MalformedArrangement : LayoutError
deriving DecidableEq, Repr

/-- State of the global pseudo-random generator (model of the Python
`random` module's hidden state). -/
structure RandState where
  s : Nat
deriving DecidableEq, Repr

/-- Model of `random.seed(seed)`: the global state is reinitialised purely
from `seed`; whatever state was current before is discarded. -/
def set_seed (seed : Nat) : RandState :=
  ⟨seed⟩

/-- One step of the modelled generator (a linear congruential update). -/
def randStep (st : RandState) : Nat × RandState :=
  let s2 := (st.s * 1103515245 + 12345) % 2147483648
  (s2, ⟨s2⟩)

/-- Model of the generator's `randbelow n`: a number below `n` (for `n > 0`),
advancing the state. -/
def randbelow (n : Nat) (st : RandState) : Nat × RandState :=
  let (r, st2) := randStep st
  (r % n, st2)

/-- Draw `k` elements from `pool` without replacement: pick a random index
into the remaining pool, take that element, and recurse on the pool with
that index removed.  This is the documented behaviour of `random.sample`
(a `k`-length list of unique population elements). -/
def sampleAux : Nat → List (Nat × Nat) → RandState → List (Nat × Nat) × RandState
  | 0, _, st => ([], st)
  | k + 1, pool, st =>
    let j := (randbelow pool.length st).1
    let st2 := (randbelow pool.length st).2
    let res := sampleAux k (pool.eraseIdx j) st2
    (pool.getD j (0, 0) :: res.1, res.2)

/-- Model of `random.sample(population, k)`: validates `k` against the
population size first (raising `ValueError`, surfaced here as the spec's
`InvalidConfiguration` condition, when `k` exceeds it), then draws `k`
distinct elements. -/
def sample (population : List (Nat × Nat)) (k : Nat) (st : RandState) :
    Except LayoutError (List (Nat × Nat) × RandState) :=
  if k ≤ population.length then .ok (sampleAux k population st)
  else .error .InvalidConfiguration

/-- `is_oppo` from the source: `lambda a, b : a>0 and b<0`. -/
def is_oppo (a b : Int) : Bool :=
  decide (a > 0) && decide (b < 0)

/-- The crossing predicate applied to one pair of connections, as in the body
of `count_cross`: `dx = con1[0] - con2[0]`, `dy = con1[1] - con2[1]`,
`crossed = is_oppo(dx, dy) or is_oppo(dy, dx)` (differences taken over the
integers, as in Python). -/
def crossed (con1 con2 : Nat × Nat) : Bool :=
  let dx : Int := (con1.1 : Int) - (con2.1 : Int)
  let dy : Int := (con1.2 : Int) - (con2.2 : Int)
  is_oppo dx dy || is_oppo dy dx

/-- `itertools.combinations(l, 2)`: all pairs of elements of `l` taken at
distinct positions `i < j`, in lexicographic position order. -/
def combinations2 : List α → List (α × α)
  | [] => []
  | x :: xs => (xs.map fun y => (x, y)) ++ combinations2 xs

/-- `count_cross(cons)`: total over all gaps of the number of position pairs
of connections satisfying the crossing predicate, accumulated exactly as the
source's loop does. -/
def count_cross (cons : List (List (Nat × Nat))) : Nat :=
  cons.foldl
    (fun acc layer_cons =>
      acc + ((combinations2 layer_cons).filter fun p => crossed p.1 p.2).length)
    0

/-- `list(product(range(i), range(j)))` from `get_rand_id_cons`: the full
cross product of gate identities of two adjacent layers, in lexicographic
order. -/
def all_cons (i j : Nat) : List (Nat × Nat) :=
  (List.range i).flatMap fun a => (List.range j).map fun b => (a, b)

/-- The sequence of adjacent pairs of a list: `(l[k], l[k+1])` for each `k`,
as read off by `get_rand_id_cons`'s loop (`layers[index]`,
`layers[index+1]`). -/
def adjPairs (l : List α) : List (α × α) :=
  l.zip l.tail

/-- The generator loop of `get_rand_id_cons`: for each gap, sample the
requested number of connections from the full cross product of the two
adjacent layers' identities, threading the global random state. -/
def genGaps : List ((Nat × Nat) × Nat) → RandState →
    Except LayoutError (List (List (Nat × Nat)) × RandState)
  | [], st => .ok ([], st)
  | ((i, j), c) :: rest, st =>
    match sample (all_cons i j) c st with
    | .error e => .error e
    | .ok (gap, st2) =>
      match genGaps rest st2 with
      | .error e => .error e
      | .ok (gaps, st3) => .ok (gap :: gaps, st3)

/-- `get_rand_id_cons(layers, connections, seed)`: seeds the global random
state (discarding the ambient state `g`) and samples each gap's connections
in order.  `g` is the ambient global generator state at call time. -/
def get_rand_id_cons (layers connections : List Nat) (seed : Nat)
    (g : RandState) : Except LayoutError (List (List (Nat × Nat)) × RandState) :=
  genGaps ((adjPairs layers).zip connections) (set_seed seed)

/-- Python's `list.index(x)`: position of the first occurrence of `x`, or an
error (`ValueError`, surfaced as `MalformedArrangement` by the mapper) when
`x` is absent. -/
def list_index : List Nat → Nat → Option Nat
  | [], _ => none
  | a :: l, x => if a = x then some 0 else (list_index l x).map (· + 1)

/-- The inner loop of `get_po_cons` for one gap: replace each connection's
identities by their positions in the two adjacent layers' permutations,
failing when an identity is absent. -/
def mapGap (p1 p2 : List Nat) : List (Nat × Nat) →
    Except LayoutError (List (Nat × Nat))
  | [] => .ok []
  | (id1, id2) :: rest =>
    match list_index p1 id1, list_index p2 id2 with
    | some pos1, some pos2 =>
      match mapGap p1 p2 rest with
      | .error e => .error e
      | .ok prest => .ok ((pos1, pos2) :: prest)
    | _, _ => .error .MalformedArrangement

/-- The outer loop of `get_po_cons`: map each gap through the pair of
adjacent permutations of the arrangement. -/
def mapGaps : List ((List Nat × List Nat) × List (Nat × Nat)) →
    Except LayoutError (List (List (Nat × Nat)))
  | [] => .ok []
  | ((p1, p2), gap) :: rest =>
    match mapGap p1 p2 gap with
    | .error e => .error e
    | .ok pgap =>
      match mapGaps rest with
      | .error e => .error e
      | .ok pgaps => .ok (pgap :: pgaps)

/-- `get_po_cons(id_cons, arrangement)`: positional connectivity for
`id_cons` given an arrangement, gap `k` being mapped through permutations
`arrangement[k]` and `arrangement[k+1]`. -/
def get_po_cons (id_cons : List (List (Nat × Nat)))
    (arrangement : List (List Nat)) :
    Except LayoutError (List (List (Nat × Nat))) :=
  mapGaps ((adjPairs arrangement).zip id_cons)

/-- `rand_arrange(layers, id_cons)`: `[range(x) for x in layers]`. -/
def rand_arrange (layers : List Nat) (id_cons : List (List (Nat × Nat))) :
    List (List Nat) :=
  layers.map List.range

/-- `get_sample(seed)` from `get_distrib`: one full trial — generate the
identity connectivity with `seed`, arrange with `arrange_fun`, map to
positions and count crossings.  The global random state `g` is threaded
through the generator. -/
def get_sample (layers connections : List Nat)
    (arrange_fun : List Nat → List (List (Nat × Nat)) → List (List Nat))
    (seed : Nat) (g : RandState) : Except LayoutError (Nat × RandState) :=
  match get_rand_id_cons layers connections seed g with
  | .error e => .error e
  | .ok (id_cons, g2) =>
    match get_po_cons id_cons (arrange_fun layers id_cons) with
    | .error e => .error e
    | .ok po_cons => .ok (count_cross po_cons, g2)

/-- The harness loop of `get_distrib` over an explicit list of seeds,
threading the global random state from trial to trial. -/
def get_distribAux (layers connections : List Nat)
    (arrange_fun : List Nat → List (List (Nat × Nat)) → List (List Nat)) :
    List Nat → RandState → Except LayoutError (List Nat × RandState)
  | [], g => .ok ([], g)
  | s :: seeds, g =>
    match get_sample layers connections arrange_fun s g with
    | .error e => .error e
    | .ok (v, g2) =>
      match get_distribAux layers connections arrange_fun seeds g2 with
      | .error e => .error e
      | .ok (vs, g3) => .ok (v :: vs, g3)

/-- `get_distrib(layers, connections, arrange_fun, samples)`: the crossing
count of one trial per seed in `range(samples)`. -/
def get_distrib (layers connections : List Nat)
    (arrange_fun : List Nat → List (List (Nat × Nat)) → List (List Nat))
    (samples : Nat) (g : RandState) :
    Except LayoutError (List Nat × RandState) :=
  get_distribAux layers connections arrange_fun (List.range samples) g

/-- The crossing predicate as worded by the spec (§4.3): with
`dx = a1 - a2` and `dy = b1 - b2`, the pair is crossed iff
`(dx > 0 and dy < 0) or (dy > 0 and dx < 0)`. -/
def crossed_spec (con1 con2 : Nat × Nat) : Bool :=
  let dx : Int := (con1.1 : Int) - (con2.1 : Int)
  let dy : Int := (con1.2 : Int) - (con2.2 : Int)
  decide ((dx > 0 ∧ dy < 0) ∨ (dy > 0 ∧ dx < 0))

/-- The per-gap property guaranteed by one successful `sample` draw with
count `c` from the cross product of layer sizes `i` and `j`: exactly `c`
pairwise-distinct connections, each endpoint in range. -/
def GapOk (i j c : Nat) (gap : List (Nat × Nat)) : Prop :=
  gap.length = c ∧ gap.Nodup ∧ ∀ ab ∈ gap, ab.1 < i ∧ ab.2 < j

/-! ### Basic lemmas about the crossing counter -/

lemma foldl_add_eq (f : α → Nat) :
    ∀ (l : List α) (acc : Nat),
      l.foldl (fun a x => a + f x) acc = acc + (l.map f).sum := by
  intro l
  induction l with
  | nil => simp
  | cons x xs ih => intro acc; simp [ih, Nat.add_assoc]

lemma count_cross_eq_sum (cons : List (List (Nat × Nat))) :
    count_cross cons
      = (cons.map fun g =>
          ((combinations2 g).filter fun p => crossed p.1 p.2).length).sum := by
  simpa [count_cross] using
    foldl_add_eq
      (fun g => ((combinations2 g).filter fun p => crossed p.1 p.2).length)
      cons 0

lemma crossed_eq_crossed_spec (c1 c2 : Nat × Nat) :
    crossed c1 c2 = crossed_spec c1 c2 := by
  simp [crossed, crossed_spec, is_oppo, Bool.decide_and, Bool.decide_or]

lemma combinations2_eq_nil_of_short {g : List α} (h : g.length < 2) :
    combinations2 g = [] := by
  match g with
  | [] => rfl
  | [x] => rfl
  | x :: y :: rest => simp at h; omega

/-- C1: `count_cross` counts, over every gap, exactly the unordered pairs of
connections whose coordinate differences `dx`, `dy` have strictly opposite
non-zero signs; pairs with `dx = 0` or `dy = 0` are never counted; the total
is the sum of the per-gap counts. -/
theorem count_cross_crossing_predicate (cons : List (List (Nat × Nat)))
    (c1 c2 : Nat × Nat)
    (h : (c1.1 : Int) - (c2.1 : Int) = 0 ∨ (c1.2 : Int) - (c2.2 : Int) = 0) :
    count_cross cons
        = (cons.map fun g =>
            ((combinations2 g).filter fun p => crossed_spec p.1 p.2).length).sum
      ∧ (∀ d1 d2 : Nat × Nat, crossed d1 d2 = crossed_spec d1 d2)
      ∧ crossed c1 c2 = false := by
  refine ⟨?_, crossed_eq_crossed_spec, ?_⟩
  · rw [count_cross_eq_sum]
    have hfun : (fun p : (Nat × Nat) × (Nat × Nat) => crossed p.1 p.2)
        = fun p => crossed_spec p.1 p.2 :=
      funext fun p => crossed_eq_crossed_spec p.1 p.2
    rw [hfun]
  · have := crossed_eq_crossed_spec c1 c2
    rw [this]
    simp only [crossed_spec, decide_eq_false_iff_not]
    rcases h with h | h <;> intro hc <;> rcases hc with ⟨h1, h2⟩ | ⟨h1, h2⟩ <;> omega

/-- Witness for C1 at a concrete gap and a concrete tied pair. -/
theorem count_cross_crossing_predicate_witness :
    ((((0 : Nat), (0 : Nat)).1 : Int) - (((0 : Nat), (5 : Nat)).1 : Int) = 0
        ∨ ((((0 : Nat), (0 : Nat)).2 : Int) - (((0 : Nat), (5 : Nat)).2 : Int) = 0))
    ∧ (count_cross [[(0, 1), (1, 0)]]
          = ([[(0, 1), (1, 0)]].map fun g =>
              ((combinations2 g).filter fun p => crossed_spec p.1 p.2).length).sum
        ∧ (∀ d1 d2 : Nat × Nat, crossed d1 d2 = crossed_spec d1 d2)
        ∧ crossed (0, 0) (0, 5) = false) :=
  ⟨by decide,
   count_cross_crossing_predicate [[(0, 1), (1, 0)]] (0, 0) (0, 5) (by decide)⟩

/-- C10: when every gap holds fewer than two connections — including no gaps
at all and empty gaps — `count_cross` returns `0`. -/
theorem count_cross_small_gaps (cons : List (List (Nat × Nat)))
    (h : ∀ g ∈ cons, g.length < 2) :
    count_cross cons = 0 := by
  rw [count_cross_eq_sum]
  apply List.sum_eq_zero
  intro x hx
  rcases List.mem_map.1 hx with ⟨g, hg, rfl⟩
  rw [combinations2_eq_nil_of_short (h g hg)]
  rfl

/-- Witness for C10 on a set with one empty gap and one singleton gap. -/
theorem count_cross_small_gaps_witness :
    (∀ g ∈ [([] : List (Nat × Nat)), [(5, 7)]], g.length < 2)
    ∧ count_cross [[], [(5, 7)]] = 0 :=
  ⟨by decide, count_cross_small_gaps [[], [(5, 7)]] (by decide)⟩

/-! ### Indexing lemmas for the adjacent-pair zips -/

lemma adjPairs_length (l : List α) : (adjPairs l).length = l.length - 1 := by
  simp only [adjPairs, List.length_zip, List.length_tail]
  omega

lemma adjPairs_zip_getD {α β : Type} (l : List α) (m : List β) (k : Nat)
    (da : α) (db : β) (h1 : k + 1 < l.length) (hk : k < m.length) :
    ((adjPairs l).zip m).getD k ((da, da), db)
      = ((l.getD k da, l.getD (k + 1) da), m.getD k db) := by
  have h2 : k < (adjPairs l).length := by rw [adjPairs_length]; omega
  have h3 : k < l.length := by omega
  have h4 : k < l.tail.length := by
    rw [List.length_tail]; omega
  have hz : k < ((adjPairs l).zip m).length := by
    rw [List.length_zip]; omega
  rw [List.getD_eq_getElem _ _ hz, List.getElem_zip]
  have hadj : (adjPairs l)[k] = (l[k], l[k + 1]) := by
    simp only [adjPairs]
    rw [List.getElem_zip]
    simp [List.getElem_tail]
  rw [hadj, List.getD_eq_getElem _ _ h3, List.getD_eq_getElem _ _ hk,
    List.getD_eq_getElem _ _ (by omega : k + 1 < l.length)]

lemma adjPairs_zip_length {α β : Type} (l : List α) (m : List β)
    (h1 : m.length + 1 ≤ l.length) :
    ((adjPairs l).zip m).length = m.length := by
  rw [List.length_zip, adjPairs_length]
  omega

/-- C2: the connection set returned by `get_rand_id_cons` is a function of
the layer sizes, the per-gap connection counts and the seed alone: the
ambient global random-generator state at call time does not influence the
result (nor the resulting generator state), so two calls on identical
inputs return identical connection sets, with the same draws in the same
order within each gap. -/
theorem get_rand_id_cons_deterministic (layers connections : List Nat)
    (seed : Nat) (g1 g2 : RandState) :
    get_rand_id_cons layers connections seed g1
      = get_rand_id_cons layers connections seed g2 :=
  rfl

/-- C8: `rand_arrange` — the shipped reference arrangement strategy —
returns for each layer of size `s` exactly the permutation
`[0, 1, ..., s-1]`, ignores the connection set, and consults no random
state. -/
theorem rand_arrange_identity (layers : List Nat)
    (idc idc2 : List (List (Nat × Nat))) (k i : Nat)
    (hk : k < layers.length) (hi : i < layers.getD k 0) :
    rand_arrange layers idc = rand_arrange layers idc2
    ∧ (rand_arrange layers idc).length = layers.length
    ∧ ((rand_arrange layers idc).getD k []).length = layers.getD k 0
    ∧ ((rand_arrange layers idc).getD k []).getD i 0 = i := by
  have hmap : (rand_arrange layers idc).getD k [] = List.range (layers.getD k 0) := by
    have hk2 : k < (layers.map List.range).length := by
      rw [List.length_map]; exact hk
    rw [rand_arrange, List.getD_eq_getElem _ _ hk2, List.getElem_map,
      List.getD_eq_getElem _ _ hk]
  refine ⟨rfl, by simp [rand_arrange], ?_, ?_⟩
  · rw [hmap, List.length_range]
  · rw [hmap, List.getD_eq_getElem _ _ (by rw [List.length_range]; exact hi),
      List.getElem_range]

/-! ### Lemmas about the cross product and the sampling model -/

lemma length_all_cons (i j : Nat) : (all_cons i j).length = i * j := by
  simp only [all_cons, List.flatMap_def, List.length_flatten, List.map_map,
    Function.comp_def, List.length_map, List.length_range, List.map_const']
  rw [List.sum_const_nat]

lemma mem_all_cons {i j : Nat} {ab : Nat × Nat} :
    ab ∈ all_cons i j ↔ ab.1 < i ∧ ab.2 < j := by
  cases ab with
  | mk a b =>
    simp only [all_cons, List.mem_flatMap, List.mem_map, List.mem_range]
    constructor
    · rintro ⟨a2, ha, b2, hb, heq⟩
      cases heq
      exact ⟨ha, hb⟩
    · rintro ⟨ha, hb⟩
      exact ⟨a, ha, b, hb, rfl⟩

lemma nodup_all_cons (i j : Nat) : (all_cons i j).Nodup := by
  rw [all_cons, List.nodup_flatMap]
  constructor
  · intro a _
    exact (List.nodup_range j).map fun b1 b2 h => congrArg Prod.snd h
  · apply List.Pairwise.imp_of_mem ?_ (List.nodup_range i)
    intro a1 a2 _ _ hne
    intro x hx1 hx2
    rcases List.mem_map.1 hx1 with ⟨b1, _, rfl⟩
    rcases List.mem_map.1 hx2 with ⟨b2, _, heq⟩
    exact hne (congrArg Prod.fst heq).symm

lemma getD_mem {l : List (Nat × Nat)} {j : Nat} (h : j < l.length) :
    l.getD j (0, 0) ∈ l := by
  rw [List.getD_eq_getElem _ _ h]
  exact List.getElem_mem h

lemma getD_not_mem_eraseIdx :
    ∀ (l : List (Nat × Nat)) (j : Nat), j < l.length → l.Nodup →
      l.getD j (0, 0) ∉ l.eraseIdx j
  | [], j, hj, _ => by simp at hj
  | a :: l, 0, _, hnd => by
    simpa using (List.nodup_cons.1 hnd).1
  | a :: l, j + 1, hj, hnd => by
    simp only [List.eraseIdx, List.getD_cons_succ, List.mem_cons, not_or]
    have hj2 : j < l.length := by simpa using hj
    constructor
    · intro heq
      exact (List.nodup_cons.1 hnd).1 (heq ▸ getD_mem hj2)
    · exact getD_not_mem_eraseIdx l j hj2 (List.nodup_cons.1 hnd).2

lemma sampleAux_length :
    ∀ (k : Nat) (pool : List (Nat × Nat)) (st : RandState),
      (sampleAux k pool st).1.length = k
  | 0, _, _ => rfl
  | k + 1, pool, st => by
    simp [sampleAux, sampleAux_length k]

lemma sampleAux_subset :
    ∀ (k : Nat) (pool : List (Nat × Nat)) (st : RandState), k ≤ pool.length →
      (sampleAux k pool st).1 ⊆ pool
  | 0, pool, st, _ => by
    intro a ha
    simp [sampleAux] at ha
  | k + 1, pool, st, hk => by
    intro a ha
    simp only [sampleAux, List.mem_cons] at ha
    have hpos : 0 < pool.length := by omega
    have hj : (randbelow pool.length st).1 < pool.length := by
      simp only [randbelow, randStep]
      exact Nat.mod_lt _ hpos
    rcases ha with rfl | hmem
    · exact getD_mem hj
    · have hlen : k ≤ (pool.eraseIdx (randbelow pool.length st).1).length := by
        rw [List.length_eraseIdx_of_lt hj]; omega
      exact List.eraseIdx_subset _ _ (sampleAux_subset k _ _ hlen hmem)

lemma sampleAux_nodup :
    ∀ (k : Nat) (pool : List (Nat × Nat)) (st : RandState), k ≤ pool.length →
      pool.Nodup → (sampleAux k pool st).1.Nodup
  | 0, _, _, _, _ => List.nodup_nil
  | k + 1, pool, st, hk, hnd => by
    simp only [sampleAux, List.nodup_cons]
    have hpos : 0 < pool.length := by omega
    have hj : (randbelow pool.length st).1 < pool.length := by
      simp only [randbelow, randStep]
      exact Nat.mod_lt _ hpos
    have hlen : k ≤ (pool.eraseIdx (randbelow pool.length st).1).length := by
      rw [List.length_eraseIdx_of_lt hj]; omega
    refine ⟨?_, sampleAux_nodup k _ _ hlen ((List.eraseIdx_sublist _ _).nodup hnd)⟩
    intro hmem
    exact getD_not_mem_eraseIdx pool _ hj hnd
      (sampleAux_subset k _ _ hlen hmem)

lemma sample_ok {i j c : Nat} {st : RandState} (h : c ≤ i * j) :
    ∃ gap st2, sample (all_cons i j) c st = .ok (gap, st2) ∧ GapOk i j c gap := by
  have hlen : c ≤ (all_cons i j).length := by rw [length_all_cons]; exact h
  refine ⟨(sampleAux c (all_cons i j) st).1, (sampleAux c (all_cons i j) st).2, ?_, ?_⟩
  · simp [sample, hlen]
  · refine ⟨sampleAux_length c _ _, sampleAux_nodup c _ _ hlen (nodup_all_cons i j), ?_⟩
    intro ab hab
    exact mem_all_cons.1 (sampleAux_subset c _ _ hlen hab)

lemma sample_err {pop : List (Nat × Nat)} {c : Nat} {st : RandState}
    (h : pop.length < c) :
    sample pop c st = .error .InvalidConfiguration := by
  simp [sample, Nat.not_le.2 h]

lemma genGaps_ok :
    ∀ (gcs : List ((Nat × Nat) × Nat)) (st : RandState),
      (∀ p ∈ gcs, p.2 ≤ p.1.1 * p.1.2) →
      ∃ gaps st2, genGaps gcs st = .ok (gaps, st2)
        ∧ List.Forall₂ (fun (p : (Nat × Nat) × Nat) gap => GapOk p.1.1 p.1.2 p.2 gap)
            gcs gaps
  | [], st, _ => ⟨[], st, rfl, List.Forall₂.nil⟩
  | ((i, j), c) :: rest, st, h => by
    have hc : c ≤ i * j := h ((i, j), c) (List.mem_cons_self _ _)
    obtain ⟨gap, st2, hs, hgap⟩ := @sample_ok i j c st hc
    obtain ⟨gaps, st3, hg, hall⟩ :=
      genGaps_ok rest st2 fun p hp => h p (List.mem_cons_of_mem _ hp)
    exact ⟨gap :: gaps, st3, by simp [genGaps, hs, hg], List.Forall₂.cons hgap hall⟩

lemma genGaps_err :
    ∀ (gcs : List ((Nat × Nat) × Nat)) (st : RandState),
      (∃ p ∈ gcs, p.1.1 * p.1.2 < p.2) →
      genGaps gcs st = .error .InvalidConfiguration
  | [], _, h => by simp at h
  | ((i, j), c) :: rest, st, h => by
    by_cases hc : c ≤ i * j
    · obtain ⟨gap, st2, hs, _⟩ := @sample_ok i j c st hc
      obtain ⟨p, hp, hover⟩ := h
      rcases List.mem_cons.1 hp with rfl | hp2
      · exact absurd hover (by simpa using hc)
      · simp [genGaps, hs, genGaps_err rest st2 ⟨p, hp2, hover⟩]
    · have hs : sample (all_cons i j) c st = .error .InvalidConfiguration := by
        apply sample_err
        rw [length_all_cons]
        omega
      simp [genGaps, hs]

/-- C3: on every valid configuration (per-gap count bounded by the product
of the adjacent layer sizes), `get_rand_id_cons` succeeds and returns, for
every gap `k`, exactly the requested number of pairwise-distinct
connections, each endpoint in range of its layer. -/
theorem get_rand_id_cons_valid (layers connections : List Nat) (seed : Nat)
    (g : RandState)
    (hlen : connections.length + 1 = layers.length)
    (hcap : ∀ k, k < connections.length →
      connections.getD k 0 ≤ layers.getD k 0 * layers.getD (k + 1) 0) :
    ∃ id_cons g2,
      get_rand_id_cons layers connections seed g = .ok (id_cons, g2)
      ∧ id_cons.length = connections.length
      ∧ ∀ k, k < connections.length →
          (id_cons.getD k []).length = connections.getD k 0
          ∧ (id_cons.getD k []).Nodup
          ∧ ∀ ab ∈ id_cons.getD k [],
              ab.1 < layers.getD k 0 ∧ ab.2 < layers.getD (k + 1) 0 := by
  have hzlen : ((adjPairs layers).zip connections).length = connections.length :=
    adjPairs_zip_length layers connections (by omega)
  have hpre : ∀ p ∈ (adjPairs layers).zip connections, p.2 ≤ p.1.1 * p.1.2 := by
    intro p hp
    obtain ⟨k, hk, hget⟩ := List.mem_iff_getElem.1 hp
    have hk2 : k < connections.length := by rwa [hzlen] at hk
    have hval : ((adjPairs layers).zip connections).getD k ((0, 0), 0)
        = ((layers.getD k 0, layers.getD (k + 1) 0), connections.getD k 0) :=
      adjPairs_zip_getD layers connections k 0 0 (by omega) hk2
    rw [List.getD_eq_getElem _ _ hk, hget] at hval
    rw [hval]
    exact hcap k hk2
  obtain ⟨gaps, st2, hg, hall⟩ := genGaps_ok ((adjPairs layers).zip connections)
    (set_seed seed) hpre
  have hlens := List.Forall₂.length_eq hall
  refine ⟨gaps, st2, hg, by omega, ?_⟩
  intro k hk
  have hk1 : k < ((adjPairs layers).zip connections).length := by omega
  have hk2 : k < gaps.length := by omega
  have hR := (List.forall₂_iff_get.1 hall).2 k hk1 hk2
  have hval : ((adjPairs layers).zip connections).getD k ((0, 0), 0)
      = ((layers.getD k 0, layers.getD (k + 1) 0), connections.getD k 0) :=
    adjPairs_zip_getD layers connections k 0 0 (by omega) hk
  rw [List.getD_eq_getElem _ _ hk1] at hval
  rw [List.get_eq_getElem, List.get_eq_getElem, hval] at hR
  have hgd : gaps.getD k [] = gaps[k] := List.getD_eq_getElem _ _ hk2
  rw [hgd]
  exact hR

/-- Witness for C3 at layers `[2, 2]`, counts `[3]`, seed `1`. -/
theorem get_rand_id_cons_valid_witness :
    (([3] : List Nat).length + 1 = ([2, 2] : List Nat).length
      ∧ ∀ k, k < ([3] : List Nat).length →
          ([3] : List Nat).getD k 0
            ≤ ([2, 2] : List Nat).getD k 0 * ([2, 2] : List Nat).getD (k + 1) 0)
    ∧ ∃ id_cons g2,
        get_rand_id_cons [2, 2] [3] 1 ⟨0⟩ = .ok (id_cons, g2)
        ∧ id_cons.length = ([3] : List Nat).length
        ∧ ∀ k, k < ([3] : List Nat).length →
            (id_cons.getD k []).length = ([3] : List Nat).getD k 0
            ∧ (id_cons.getD k []).Nodup
            ∧ ∀ ab ∈ id_cons.getD k [],
                ab.1 < ([2, 2] : List Nat).getD k 0
                ∧ ab.2 < ([2, 2] : List Nat).getD (k + 1) 0 :=
  ⟨⟨by decide, by decide⟩,
   get_rand_id_cons_valid [2, 2] [3] 1 ⟨0⟩ (by decide) (by decide)⟩

/-- C4: whenever some requested gap count exceeds the product of the two
adjacent layer sizes, `get_rand_id_cons` fails with the
`InvalidConfiguration` condition at generation time, returning no partial
result. -/
theorem get_rand_id_cons_invalid (layers connections : List Nat) (seed : Nat)
    (g : RandState) (k : Nat)
    (hk1 : k + 1 < layers.length) (hk2 : k < connections.length)
    (hover : layers.getD k 0 * layers.getD (k + 1) 0 < connections.getD k 0) :
    get_rand_id_cons layers connections seed g = .error .InvalidConfiguration := by
  apply genGaps_err
  have hzlen : k < ((adjPairs layers).zip connections).length := by
    rw [List.length_zip, adjPairs_length]
    omega
  refine ⟨((adjPairs layers).zip connections).getD k ((0, 0), 0), ?_, ?_⟩
  · rw [List.getD_eq_getElem _ _ hzlen]
    exact List.getElem_mem hzlen
  · rw [adjPairs_zip_getD layers connections k 0 0 (by omega) hk2]
    exact hover

/-- Witness for C4: the spec's concrete error scenario
`generate_connectivity([2,2], [5], seed=1)`. -/
theorem get_rand_id_cons_invalid_witness :
    (0 + 1 < ([2, 2] : List Nat).length ∧ 0 < ([5] : List Nat).length
      ∧ ([2, 2] : List Nat).getD 0 0 * ([2, 2] : List Nat).getD 1 0
          < ([5] : List Nat).getD 0 0)
    ∧ get_rand_id_cons [2, 2] [5] 1 ⟨0⟩ = .error .InvalidConfiguration :=
  ⟨⟨by decide, by decide, by decide⟩,
   get_rand_id_cons_invalid [2, 2] [5] 1 ⟨0⟩ 0 (by decide) (by decide) (by decide)⟩

/-! ### Lemmas about the arrangement mapper -/

lemma list_index_eq_none {l : List Nat} {x : Nat} :
    list_index l x = none ↔ x ∉ l := by
  induction l with
  | nil => simp [list_index]
  | cons a l ih =>
    by_cases h : a = x
    · subst h
      simp [list_index]
    · simp only [list_index, if_neg h, Option.map_eq_none', ih, List.mem_cons,
        not_or]
      constructor
      · intro h2
        exact ⟨fun he => h he.symm, h2⟩
      · intro h2
        exact h2.2

lemma list_index_map_succ (l : List Nat) (x : Nat) :
    list_index (l.map Nat.succ) (x + 1) = list_index l x := by
  induction l with
  | nil => rfl
  | cons a l ih =>
    by_cases h : a = x
    · subst h
      simp [list_index]
    · have h2 : Nat.succ a ≠ x + 1 := by omega
      simp only [List.map_cons, list_index, if_neg h, if_neg h2, ih]

lemma list_index_range {s a : Nat} (h : a < s) :
    list_index (List.range s) a = some a := by
  induction s generalizing a with
  | zero => omega
  | succ s ih =>
    rw [List.range_succ_eq_map]
    cases a with
    | zero => rfl
    | succ a =>
      have h0 : (0 : Nat) ≠ a + 1 := by omega
      simp only [list_index, if_neg h0, list_index_map_succ, ih (by omega : a < s)]
      rfl

lemma mapGap_no_invalid (p1 p2 : List Nat) :
    ∀ gap : List (Nat × Nat), mapGap p1 p2 gap ≠ .error .InvalidConfiguration
  | [] => by simp [mapGap]
  | (id1, id2) :: rest => by
    rcases h1 : list_index p1 id1 with _ | pos1
    · simp [mapGap, h1]
    rcases h2 : list_index p2 id2 with _ | pos2
    · simp [mapGap, h1, h2]
    rcases h3 : mapGap p1 p2 rest with e | prest
    · cases e
      · exact absurd h3 (mapGap_no_invalid p1 p2 rest)
      · simp [mapGap, h1, h2, h3]
    · simp [mapGap, h1, h2, h3]

lemma mapGap_err_iff (p1 p2 : List Nat) :
    ∀ gap : List (Nat × Nat),
      mapGap p1 p2 gap = .error .MalformedArrangement
        ↔ ∃ ab ∈ gap, ab.1 ∉ p1 ∨ ab.2 ∉ p2
  | [] => by simp [mapGap]
  | (id1, id2) :: rest => by
    rcases h1 : list_index p1 id1 with _ | pos1
    · simp only [mapGap, h1]
      exact ⟨fun _ => ⟨(id1, id2), List.mem_cons_self _ _,
        Or.inl (list_index_eq_none.1 h1)⟩, fun _ => trivial⟩
    rcases h2 : list_index p2 id2 with _ | pos2
    · simp only [mapGap, h1, h2]
      exact ⟨fun _ => ⟨(id1, id2), List.mem_cons_self _ _,
        Or.inr (list_index_eq_none.1 h2)⟩, fun _ => trivial⟩
    have hm1 : id1 ∈ p1 := by
      by_contra hm
      rw [list_index_eq_none.2 hm] at h1
      cases h1
    have hm2 : id2 ∈ p2 := by
      by_contra hm
      rw [list_index_eq_none.2 hm] at h2
      cases h2
    rcases h3 : mapGap p1 p2 rest with e | prest
    · have he : e = .MalformedArrangement := by
        cases e
        · exact absurd h3 (mapGap_no_invalid p1 p2 rest)
        · rfl
      subst he
      obtain ⟨ab, hab, hor⟩ := (mapGap_err_iff p1 p2 rest).1 h3
      simp only [mapGap, h1, h2, h3]
      exact ⟨fun _ => ⟨ab, List.mem_cons_of_mem _ hab, hor⟩, fun _ => trivial⟩
    · simp only [mapGap, h1, h2, h3]
      constructor
      · intro hfalse
        cases hfalse
      · rintro ⟨ab, hab, hor⟩
        rcases List.mem_cons.1 hab with rfl | hmem
        · rcases hor with hm | hm
          · exact absurd hm1 hm
          · exact absurd hm2 hm
        · have herr := (mapGap_err_iff p1 p2 rest).2 ⟨ab, hmem, hor⟩
          rw [h3] at herr
          cases herr

/-- Witness for C8 at layers `[3, 2]`, two different connection sets,
layer `1`, entry `0`. -/
theorem rand_arrange_identity_witness :
    (1 < [3, 2].length ∧ 0 < [3, 2].getD 1 0)
    ∧ (rand_arrange [3, 2] [[(0, 0)]] = rand_arrange [3, 2] []
        ∧ (rand_arrange [3, 2] [[(0, 0)]]).length = [3, 2].length
        ∧ ((rand_arrange [3, 2] [[(0, 0)]]).getD 1 []).length = [3, 2].getD 1 0
        ∧ ((rand_arrange [3, 2] [[(0, 0)]]).getD 1 []).getD 0 0 = 0) :=
  ⟨⟨by decide, by decide⟩,
   rand_arrange_identity [3, 2] [[(0, 0)]] [] 1 0 (by decide) (by decide)⟩

lemma mapGaps_ok_forall₂ :
    ∀ (entries : List ((List Nat × List Nat) × List (Nat × Nat)))
      (pgaps : List (List (Nat × Nat))), mapGaps entries = .ok pgaps →
      List.Forall₂ (fun e pgap => mapGap e.1.1 e.1.2 e.2 = .ok pgap) entries pgaps
  | [], pgaps, h => by
    injection h with h2
    subst h2
    exact List.Forall₂.nil
  | ((p1, p2), gap) :: rest, pgaps, h => by
    rcases h1 : mapGap p1 p2 gap with e | pgap
    · simp only [mapGaps, h1] at h
      cases h
    · rcases h2 : mapGaps rest with e2 | pgaps2
      · simp only [mapGaps, h1, h2] at h
        cases h
      · simp only [mapGaps, h1, h2] at h
        injection h with h3
        subst h3
        exact List.Forall₂.cons h1 (mapGaps_ok_forall₂ rest pgaps2 h2)

lemma mapGaps_no_invalid :
    ∀ entries : List ((List Nat × List Nat) × List (Nat × Nat)),
      mapGaps entries ≠ .error .InvalidConfiguration
  | [] => by simp [mapGaps]
  | ((p1, p2), gap) :: rest => by
    rcases h1 : mapGap p1 p2 gap with e | pgap
    · cases e
      · exact absurd h1 (mapGap_no_invalid p1 p2 gap)
      · simp [mapGaps, h1]
    · rcases h2 : mapGaps rest with e2 | pgaps
      · cases e2
        · exact absurd h2 (mapGaps_no_invalid rest)
        · simp [mapGaps, h1, h2]
      · simp [mapGaps, h1, h2]

lemma mapGaps_err_iff :
    ∀ entries : List ((List Nat × List Nat) × List (Nat × Nat)),
      mapGaps entries = .error .MalformedArrangement
        ↔ ∃ e ∈ entries, mapGap e.1.1 e.1.2 e.2 = .error .MalformedArrangement
  | [] => by simp [mapGaps]
  | ((p1, p2), gap) :: rest => by
    rcases h1 : mapGap p1 p2 gap with e | pgap
    · have he : e = .MalformedArrangement := by
        cases e
        · exact absurd h1 (mapGap_no_invalid p1 p2 gap)
        · rfl
      subst he
      simp only [mapGaps, h1]
      exact ⟨fun _ => ⟨((p1, p2), gap), List.mem_cons_self _ _, h1⟩,
        fun _ => trivial⟩
    · rcases h2 : mapGaps rest with e2 | pgaps
      · have he : e2 = .MalformedArrangement := by
          cases e2
          · exact absurd h2 (mapGaps_no_invalid rest)
          · rfl
        subst he
        simp only [mapGaps, h1, h2]
        obtain ⟨e3, he3, herr⟩ := (mapGaps_err_iff rest).1 h2
        exact ⟨fun _ => ⟨e3, List.mem_cons_of_mem _ he3, herr⟩, fun _ => trivial⟩
      · simp only [mapGaps, h1, h2]
        constructor
        · intro hfalse
          cases hfalse
        · rintro ⟨e, he, herr⟩
          rcases List.mem_cons.1 he with rfl | hmem
          · rw [h1] at herr
            cases herr
          · have := (mapGaps_err_iff rest).2 ⟨e, hmem, herr⟩
            rw [h2] at this
            cases this

lemma mapGaps_ok_id :
    ∀ entries : List ((List Nat × List Nat) × List (Nat × Nat)),
      (∀ e ∈ entries, mapGap e.1.1 e.1.2 e.2 = .ok e.2) →
      mapGaps entries = .ok (entries.map Prod.snd)
  | [], _ => rfl
  | ((p1, p2), gap) :: rest, h => by
    have h1 := h _ (List.mem_cons_self _ _)
    have h2 := mapGaps_ok_id rest fun e he => h e (List.mem_cons_of_mem _ he)
    simp [mapGaps, h1, h2]

lemma mapGap_ok_forall₂ (p1 p2 : List Nat) :
    ∀ (gap pgap : List (Nat × Nat)), mapGap p1 p2 gap = .ok pgap →
      List.Forall₂ (fun ab pq =>
        list_index p1 ab.1 = some pq.1 ∧ list_index p2 ab.2 = some pq.2) gap pgap
  | [], pgap, h => by
    injection h with h2
    subst h2
    exact List.Forall₂.nil
  | (id1, id2) :: rest, pgap, h => by
    rcases h1 : list_index p1 id1 with _ | pos1
    · simp only [mapGap, h1] at h
      cases h
    rcases h2 : list_index p2 id2 with _ | pos2
    · simp only [mapGap, h1, h2] at h
      cases h
    rcases h3 : mapGap p1 p2 rest with e | prest
    · simp only [mapGap, h1, h2, h3] at h
      cases h
    · simp only [mapGap, h1, h2, h3] at h
      injection h with h4
      subst h4
      exact List.Forall₂.cons ⟨h1, h2⟩ (mapGap_ok_forall₂ p1 p2 rest prest h3)

lemma getD_map_range (layers : List Nat) (k : Nat) (hk : k < layers.length) :
    (layers.map List.range).getD k [] = List.range (layers.getD k 0) := by
  have hk2 : k < (layers.map List.range).length := by
    rw [List.length_map]
    exact hk
  rw [List.getD_eq_getElem _ _ hk2, List.getElem_map,
    List.getD_eq_getElem _ _ hk]

lemma mapGap_range (s1 s2 : Nat) :
    ∀ gap : List (Nat × Nat), (∀ ab ∈ gap, ab.1 < s1 ∧ ab.2 < s2) →
      mapGap (List.range s1) (List.range s2) gap = .ok gap
  | [], _ => rfl
  | (id1, id2) :: rest, h => by
    have h1 := h _ (List.mem_cons_self _ _)
    have h2 := mapGap_range s1 s2 rest fun ab hab => h ab (List.mem_cons_of_mem _ hab)
    simp [mapGap, list_index_range h1.1, list_index_range h1.2, h2]

/-- C5 counterexample: the arrangement `[[0,0],[0]]` has a first-layer
permutation that duplicates identity `0` (hence is not a bijection over any
identity range), yet `get_po_cons` succeeds on a connection set referencing
that layer instead of failing with `MalformedArrangement`. -/
theorem get_po_cons_accepts_duplicated_permutation :
    get_po_cons [[(0, 0)]] [[0, 0], [0]] = .ok [[(0, 0)]]
    ∧ ¬ ([0, 0] : List Nat).Nodup := by
  exact ⟨rfl, by decide⟩

/-- C5 (amended): with an arrangement covering every layer, `get_po_cons`
fails — necessarily with `MalformedArrangement` — exactly when some
connection references an identity that does not appear in the corresponding
layer's permutation; duplicated or out-of-range permutation entries alone do
not cause failure. -/
theorem get_po_cons_missing_identity_iff (id_cons : List (List (Nat × Nat)))
    (arr : List (List Nat)) (hlen : arr.length = id_cons.length + 1) :
    get_po_cons id_cons arr = .error .MalformedArrangement
      ↔ ∃ k, k < id_cons.length ∧ ∃ ab ∈ id_cons.getD k [],
          (ab.1 ∉ arr.getD k [] ∨ ab.2 ∉ arr.getD (k + 1) []) := by
  rw [get_po_cons, mapGaps_err_iff]
  have hzlen : ((adjPairs arr).zip id_cons).length = id_cons.length :=
    adjPairs_zip_length arr id_cons (by omega)
  constructor
  · rintro ⟨e, he, herr⟩
    obtain ⟨k, hk, hget⟩ := List.mem_iff_getElem.1 he
    have hk2 : k < id_cons.length := by omega
    have hval : ((adjPairs arr).zip id_cons).getD k (([], []), [])
        = ((arr.getD k [], arr.getD (k + 1) []), id_cons.getD k []) :=
      adjPairs_zip_getD arr id_cons k [] [] (by omega) hk2
    rw [List.getD_eq_getElem _ _ hk, hget] at hval
    rw [hval] at herr
    obtain ⟨ab, hab, hor⟩ := (mapGap_err_iff _ _ _).1 herr
    exact ⟨k, hk2, ab, hab, hor⟩
  · rintro ⟨k, hk, ab, hab, hor⟩
    have hk1 : k < ((adjPairs arr).zip id_cons).length := by omega
    refine ⟨((adjPairs arr).zip id_cons).getD k (([], []), []), ?_, ?_⟩
    · rw [List.getD_eq_getElem _ _ hk1]
      exact List.getElem_mem hk1
    · rw [adjPairs_zip_getD arr id_cons k [] [] (by omega) hk]
      exact (mapGap_err_iff _ _ _).2 ⟨ab, hab, hor⟩

/-- Witness for the amended C5: the connection `(0, 1)` references identity
`1`, absent from the second layer's permutation `[0]`, so mapping fails. -/
theorem get_po_cons_missing_identity_iff_witness :
    (([[0], [0]] : List (List Nat)).length
        = ([[(0, 1)]] : List (List (Nat × Nat))).length + 1)
    ∧ (get_po_cons [[(0, 1)]] [[0], [0]] = .error .MalformedArrangement
        ↔ ∃ k, k < ([[(0, 1)]] : List (List (Nat × Nat))).length
            ∧ ∃ ab ∈ ([[(0, 1)]] : List (List (Nat × Nat))).getD k [],
              (ab.1 ∉ ([[0], [0]] : List (List Nat)).getD k []
                ∨ ab.2 ∉ ([[0], [0]] : List (List Nat)).getD (k + 1) [])) :=
  ⟨by decide, get_po_cons_missing_identity_iff [[(0, 1)]] [[0], [0]] (by decide)⟩

/-- C6: mapping an identity-keyed connection set through the identity
Arrangement (`[0, 1, ..., size-1]` per layer, as produced by
`rand_arrange`) returns the connection set itself, pairwise equal to the
input, hence with an equal crossing count. -/
theorem get_po_cons_identity_arrangement (layers : List Nat)
    (id_cons : List (List (Nat × Nat)))
    (hlen : id_cons.length + 1 = layers.length)
    (hrange : ∀ k, k < id_cons.length → ∀ ab ∈ id_cons.getD k [],
      ab.1 < layers.getD k 0 ∧ ab.2 < layers.getD (k + 1) 0) :
    get_po_cons id_cons (rand_arrange layers id_cons) = .ok id_cons
    ∧ ∀ po_cons, get_po_cons id_cons (rand_arrange layers id_cons) = .ok po_cons →
        count_cross po_cons = count_cross id_cons := by
  have harr : (rand_arrange layers id_cons).length = id_cons.length + 1 := by
    rw [rand_arrange, List.length_map]
    omega
  have hmain : get_po_cons id_cons (rand_arrange layers id_cons) = .ok id_cons := by
    rw [get_po_cons]
    have hid : ∀ e ∈ (adjPairs (rand_arrange layers id_cons)).zip id_cons,
        mapGap e.1.1 e.1.2 e.2 = .ok e.2 := by
      intro e he
      have hzlen := adjPairs_zip_length (rand_arrange layers id_cons) id_cons
        (by omega)
      obtain ⟨k, hk, hget⟩ := List.mem_iff_getElem.1 he
      have hk2 : k < id_cons.length := by omega
      have hval : ((adjPairs (rand_arrange layers id_cons)).zip id_cons).getD k
            (([], []), [])
          = (((rand_arrange layers id_cons).getD k [],
              (rand_arrange layers id_cons).getD (k + 1) []), id_cons.getD k []) :=
        adjPairs_zip_getD _ id_cons k [] [] (by omega) hk2
      rw [List.getD_eq_getElem _ _ hk, hget] at hval
      rw [hval]
      show mapGap ((rand_arrange layers id_cons).getD k [])
        ((rand_arrange layers id_cons).getD (k + 1) []) (id_cons.getD k []) = _
      rw [rand_arrange, getD_map_range layers k (by omega),
        getD_map_range layers (k + 1) (by omega)]
      exact mapGap_range _ _ _ (hrange k hk2)
    rw [mapGaps_ok_id _ hid,
      List.map_snd_zip _ _ (by rw [adjPairs_length, harr]; omega)]
  refine ⟨hmain, ?_⟩
  intro po_cons hpo
  rw [hmain] at hpo
  injection hpo with h2
  rw [h2]

/-- Witness for C6 at layers `[2, 2]` and a one-gap connection set. -/
theorem get_po_cons_identity_arrangement_witness :
    (([[(0, 1), (1, 0)]] : List (List (Nat × Nat))).length + 1
        = ([2, 2] : List Nat).length
      ∧ ∀ k, k < ([[(0, 1), (1, 0)]] : List (List (Nat × Nat))).length →
          ∀ ab ∈ ([[(0, 1), (1, 0)]] : List (List (Nat × Nat))).getD k [],
            ab.1 < ([2, 2] : List Nat).getD k 0
            ∧ ab.2 < ([2, 2] : List Nat).getD (k + 1) 0)
    ∧ (get_po_cons [[(0, 1), (1, 0)]] (rand_arrange [2, 2] [[(0, 1), (1, 0)]])
          = .ok [[(0, 1), (1, 0)]]
        ∧ ∀ po_cons,
            get_po_cons [[(0, 1), (1, 0)]] (rand_arrange [2, 2] [[(0, 1), (1, 0)]])
              = .ok po_cons →
            count_cross po_cons = count_cross [[(0, 1), (1, 0)]]) :=
  ⟨⟨by decide, by decide⟩,
   get_po_cons_identity_arrangement [2, 2] [[(0, 1), (1, 0)]]
     (by decide) (by decide)⟩

/-- C9: a successful `get_po_cons` keeps the gaps in input order with the
same number of connections per gap in the same order, each connection's
endpoints replaced by their positions in the adjacent permutations (and
nothing else changed); inputs are untouched, the embedding being pure. -/
theorem get_po_cons_order_preserving (id_cons : List (List (Nat × Nat)))
    (arr : List (List Nat)) (po_cons : List (List (Nat × Nat)))
    (hlen : arr.length = id_cons.length + 1)
    (h : get_po_cons id_cons arr = .ok po_cons) :
    po_cons.length = id_cons.length
    ∧ ∀ k, k < id_cons.length →
        List.Forall₂ (fun ab pq : Nat × Nat =>
          list_index (arr.getD k []) ab.1 = some pq.1
          ∧ list_index (arr.getD (k + 1) []) ab.2 = some pq.2)
          (id_cons.getD k []) (po_cons.getD k []) := by
  rw [get_po_cons] at h
  have hall := mapGaps_ok_forall₂ _ _ h
  have hzlen : ((adjPairs arr).zip id_cons).length = id_cons.length :=
    adjPairs_zip_length arr id_cons (by omega)
  have hlens := List.Forall₂.length_eq hall
  refine ⟨by omega, ?_⟩
  intro k hk
  have hk1 : k < ((adjPairs arr).zip id_cons).length := by omega
  have hk2 : k < po_cons.length := by omega
  have hR := (List.forall₂_iff_get.1 hall).2 k hk1 hk2
  have hval : ((adjPairs arr).zip id_cons).getD k (([], []), [])
      = ((arr.getD k [], arr.getD (k + 1) []), id_cons.getD k []) :=
    adjPairs_zip_getD arr id_cons k [] [] (by omega) hk
  rw [List.getD_eq_getElem _ _ hk1] at hval
  rw [List.get_eq_getElem, List.get_eq_getElem, hval] at hR
  have hgd : po_cons.getD k [] = po_cons[k] := List.getD_eq_getElem _ _ hk2
  rw [hgd]
  exact mapGap_ok_forall₂ _ _ _ _ hR

/-- Witness for C9 at a two-connection gap and a reversing second layer. -/
theorem get_po_cons_order_preserving_witness :
    (([[0, 1], [1, 0]] : List (List Nat)).length
        = ([[(0, 1), (1, 0)]] : List (List (Nat × Nat))).length + 1
      ∧ get_po_cons [[(0, 1), (1, 0)]] [[0, 1], [1, 0]] = .ok [[(0, 0), (1, 1)]])
    ∧ (([[(0, 0), (1, 1)]] : List (List (Nat × Nat))).length
          = ([[(0, 1), (1, 0)]] : List (List (Nat × Nat))).length
        ∧ ∀ k, k < ([[(0, 1), (1, 0)]] : List (List (Nat × Nat))).length →
            List.Forall₂ (fun ab pq : Nat × Nat =>
              list_index (([[0, 1], [1, 0]] : List (List Nat)).getD k []) ab.1
                  = some pq.1
              ∧ list_index (([[0, 1], [1, 0]] : List (List Nat)).getD (k + 1) []) ab.2
                  = some pq.2)
              (([[(0, 1), (1, 0)]] : List (List (Nat × Nat))).getD k [])
              (([[(0, 0), (1, 1)]] : List (List (Nat × Nat))).getD k [])) :=
  ⟨⟨by decide, rfl⟩,
   get_po_cons_order_preserving [[(0, 1), (1, 0)]] [[0, 1], [1, 0]]
     [[(0, 0), (1, 1)]] (by decide) rfl⟩

/-! ### The evaluation harness -/

lemma get_distribAux_forall₂ (layers connections : List Nat)
    (f : List Nat → List (List (Nat × Nat)) → List (List Nat)) (g : RandState) :
    ∀ (seeds : List Nat) (gcur : RandState) (d : List Nat) (gout : RandState),
      get_distribAux layers connections f seeds gcur = .ok (d, gout) →
      List.Forall₂ (fun s v => ∃ id_cons g2 po_cons,
        get_rand_id_cons layers connections s g = .ok (id_cons, g2)
        ∧ get_po_cons id_cons (f layers id_cons) = .ok po_cons
        ∧ v = count_cross po_cons) seeds d
  | [], gcur, d, gout, h => by
    cases h
    exact List.Forall₂.nil
  | s :: seeds, gcur, d, gout, h => by
    rcases h1 : get_sample layers connections f s gcur with e | vg
    · simp only [get_distribAux, h1] at h
      cases h
    obtain ⟨v, gnext⟩ := vg
    rcases h2 : get_distribAux layers connections f seeds gnext with e2 | dg
    · simp only [get_distribAux, h1, h2] at h
      cases h
    obtain ⟨ds, gfin⟩ := dg
    simp only [get_distribAux, h1, h2] at h
    cases h
    have hhead : ∃ id_cons g2 po_cons,
        get_rand_id_cons layers connections s g = .ok (id_cons, g2)
        ∧ get_po_cons id_cons (f layers id_cons) = .ok po_cons
        ∧ v = count_cross po_cons := by
      rcases hr : get_rand_id_cons layers connections s gcur with e | ig
      · simp only [get_sample, hr] at h1
        cases h1
      obtain ⟨idc, g2⟩ := ig
      rcases hp : get_po_cons idc (f layers idc) with e | poc
      · simp only [get_sample, hr, hp] at h1
        cases h1
      simp only [get_sample, hr, hp] at h1
      injection h1 with h3
      exact ⟨idc, g2, poc, hr, hp, (congrArg Prod.fst h3).symm⟩
    exact List.Forall₂.cons hhead
      (get_distribAux_forall₂ layers connections f g seeds _ _ _ h2)

/-- C7: a successful `get_distrib` run over `N` trials returns exactly `N`
crossing counts, and the entry for each seed `k < N` is precisely the result
of generating connectivity with seed `k`, arranging with the algorithm under
test, mapping to positions and counting crossings — with the generation
expressed against the harness's initial random state `g`, showing that no
state other than the seed value carries across trials. -/
theorem get_distrib_per_seed (layers connections : List Nat)
    (f : List Nat → List (List (Nat × Nat)) → List (List Nat))
    (N : Nat) (g gout : RandState) (d : List Nat)
    (h : get_distrib layers connections f N g = .ok (d, gout)) :
    d.length = N
    ∧ ∀ k, k < N → ∃ id_cons g2 po_cons,
        get_rand_id_cons layers connections k g = .ok (id_cons, g2)
        ∧ get_po_cons id_cons (f layers id_cons) = .ok po_cons
        ∧ d.getD k 0 = count_cross po_cons := by
  rw [get_distrib] at h
  have hall := get_distribAux_forall₂ layers connections f g (List.range N)
    g d gout h
  have hlen := List.Forall₂.length_eq hall
  rw [List.length_range] at hlen
  refine ⟨hlen.symm, ?_⟩
  intro k hk
  have hk1 : k < (List.range N).length := by
    rw [List.length_range]
    exact hk
  have hk2 : k < d.length := by omega
  have hR := (List.forall₂_iff_get.1 hall).2 k hk1 hk2
  rw [List.get_eq_getElem, List.get_eq_getElem, List.getElem_range] at hR
  rw [List.getD_eq_getElem _ _ hk2]
  exact hR

/-- Witness for C7: a two-trial run on layers `[2, 2]` with one connection
per gap and the identity strategy. -/
theorem get_distrib_per_seed_witness :
    get_distrib [2, 2] [1] rand_arrange 2 ⟨0⟩ = .ok ([0, 0], ⟨1103527590⟩)
    ∧ (([0, 0] : List Nat).length = 2
        ∧ ∀ k, k < 2 → ∃ id_cons g2 po_cons,
            get_rand_id_cons [2, 2] [1] k ⟨0⟩ = .ok (id_cons, g2)
            ∧ get_po_cons id_cons (rand_arrange [2, 2] id_cons) = .ok po_cons
            ∧ ([0, 0] : List Nat).getD k 0 = count_cross po_cons) :=
  ⟨rfl, get_distrib_per_seed [2, 2] [1] rand_arrange 2 ⟨0⟩ ⟨1103527590⟩
    [0, 0] rfl⟩

end Layout
